import Mathlib

/-!
Verification of the traffic-control and caching core of the lol-mcp-server
repository (TypeScript).  The embedding below translates the relevant
source functions into Lean:

* `src/services/rate-limiter.ts` — dual-window rate limiter with a
  priority queue (`resetCountersIfNeeded`, `canMakeRequest`,
  `recordRequest`, `getWaitTime`, `processQueue`, `waitForRateLimit`,
  `withRetry`, `getRateLimitStatus`);
* `src/services/cache.ts` — multi-namespace TTL/LRU cache built on
  lru-cache v10 (`cacheGet`, `cacheSet`, `initCache`, `getCacheStats`);
* `src/services/riot-client.ts` — upstream client (`riotFetch` error
  classification, `getCurrentGame`, `getMatchIds` cache key,
  `getMatches` batch fetch);
* `src/services/data-dragon.ts` — reference-data resolver
  (`getItemById`, `getDataDragonStatus`).

Timestamps are `Nat` milliseconds (JavaScript `Date.now()`).  JavaScript
in-place mutation of module state is embedded as explicit state passing:
a source function that mutates state becomes a Lean function returning
the updated state together with its result.  Asynchronous callbacks
(`resolve` closures of queued requests) are identified by a numeric id.
-/

/-! ## Constants (`src/constants/index.ts`) -/

/-- The constant `RATE_LIMITS.REQUESTS_PER_SECOND` of the source. -/
def REQUESTS_PER_SECOND : Nat := 20

/-- The constant `RATE_LIMITS.REQUESTS_PER_2_MINUTES` of the source. -/
def REQUESTS_PER_2_MINUTES : Nat := 100

/-- The constant `RATE_LIMITS.RETRY_DELAY_MS` of the source. -/
def RETRY_DELAY_MS : Nat := 1000

/-- The constant `RATE_LIMITS.MAX_RETRIES` of the source. -/
def MAX_RETRIES : Nat := 3

/-! ## JavaScript string `includes`

`String.prototype.includes(sub)` is true when `sub` occurs as a
contiguous substring.  We model it over character lists. -/

/-- `startsWithChars l sub` is true when `sub` is an initial segment of `l`. -/
def startsWithChars : List Char → List Char → Bool
  | _, [] => true
  | [], _ :: _ => false
  | a :: as, b :: bs => a == b && startsWithChars as bs

/-- `containsSeq sub l` is true when `sub` occurs contiguously inside `l`. -/
def containsSeq (sub : List Char) : List Char → Bool
  | [] => sub.isEmpty
  | c :: rest => startsWithChars (c :: rest) sub || containsSeq sub rest

/-- JavaScript `s.includes(sub)`. -/
def jsIncludes (s sub : String) : Bool :=
  containsSeq sub.data s.data

/-! ## Rate limiter state (`rate-limiter.ts`, interface `RateLimitState`) -/

/-- A queued admission request: the source stores a `resolve` callback and a
priority; the callback is identified here by a numeric id. -/
structure QueuedRequest where
  rid : Nat
  priority : Int
deriving DecidableEq, Repr

/-- The module-level `state` of `rate-limiter.ts`. -/
structure RLState where
  requestsThisSecond : Nat
  requestsThis2Minutes : Nat
  lastSecondReset : Nat
  last2MinutesReset : Nat
  queue : List QueuedRequest
  processing : Bool
deriving DecidableEq, Repr

/-- Source `resetCountersIfNeeded` (rate-limiter.ts lines 28-42): resets the
per-second counter when the 1000 ms window elapsed and the per-2-minutes
counter when the 120000 ms window elapsed. -/
def resetCountersIfNeeded (now : Nat) (s : RLState) : RLState :=
  let s1 :=
    if 1000 ≤ now - s.lastSecondReset then
      { s with requestsThisSecond := 0, lastSecondReset := now }
    else s
  if 120000 ≤ now - s1.last2MinutesReset then
    { s1 with requestsThis2Minutes := 0, last2MinutesReset := now }
  else s1

/-- Source `canMakeRequest` (lines 47-54): resets expired windows, then tests
both counters against their limits.  The mutated state is returned too. -/
def canMakeRequest (now : Nat) (s : RLState) : Bool × RLState :=
  let s1 := resetCountersIfNeeded now s
  (decide (s1.requestsThisSecond < REQUESTS_PER_SECOND) &&
     decide (s1.requestsThis2Minutes < REQUESTS_PER_2_MINUTES), s1)

/-- Source `recordRequest` (lines 59-62): consumes one unit of each window. -/
def recordRequest (s : RLState) : RLState :=
  { s with
    requestsThisSecond := s.requestsThisSecond + 1,
    requestsThis2Minutes := s.requestsThis2Minutes + 1 }

/-- Source `getWaitTime` (lines 67-81): milliseconds until the nearest
exhausted window frees capacity. -/
def getWaitTime (now : Nat) (s : RLState) : Nat × RLState :=
  let s1 := resetCountersIfNeeded now s
  if REQUESTS_PER_SECOND ≤ s1.requestsThisSecond then
    (1000 - (now - s1.lastSecondReset), s1)
  else if REQUESTS_PER_2_MINUTES ≤ s1.requestsThis2Minutes then
    (120000 - (now - s1.last2MinutesReset), s1)
  else (0, s1)

/-- Stable insertion used to model `Array.prototype.sort` with comparator
`(a, b) => b.priority - a.priority`: an element is placed before the first
element of strictly smaller or equal-and-later priority, keeping the original
relative order of equal priorities (ECMAScript sort is stable). -/
def insertByPrio (x : QueuedRequest) : List QueuedRequest → List QueuedRequest
  | [] => [x]
  | y :: ys => if y.priority ≤ x.priority then x :: y :: ys else y :: insertByPrio x ys

/-- Model of `state.queue.sort((a, b) => b.priority - a.priority)` (line 103):
stable sort by descending priority. -/
def sortByPrioDesc (l : List QueuedRequest) : List QueuedRequest :=
  l.foldr insertByPrio []

/-- One admitting iteration of the `processQueue` service loop (lines
101-109): after `canMakeRequest` passes, sort the queue by descending
priority, shift the first element, record the request, and resolve it.
Returns the admitted request (`none` when quota is exhausted or the queue is
empty) and the updated state. -/
def processQueueStep (now : Nat) (s : RLState) : Option QueuedRequest × RLState :=
  let (ok, s1) := canMakeRequest now s
  if ok then
    match sortByPrioDesc s1.queue with
    | [] => (none, s1)
    | next :: rest => (some next, recordRequest { s1 with queue := rest })
  else (none, s1)

/-- Outcome of a `waitForRateLimit` call. -/
inductive AdmitOutcome where
  | admitted
  | queued
deriving DecidableEq, Repr

/-- Source `waitForRateLimit` (lines 120-132): if a request can be made
immediately it is recorded and the caller returns at once; otherwise the
caller is appended to the wait queue (`state.queue.push`). -/
def waitForRateLimit (now : Nat) (priority : Int) (rid : Nat) (s : RLState) :
    AdmitOutcome × RLState :=
  let (ok, s1) := canMakeRequest now s
  if ok then (.admitted, recordRequest s1)
  else (.queued, { s1 with queue := s1.queue ++ [⟨rid, priority⟩] })

/-- The snapshot returned by `getRateLimitStatus`. -/
structure RateLimitStatus where
  requestsThisSecond : Nat
  requestsThis2Minutes : Nat
  queueLength : Nat
  canMakeRequest : Bool
deriving DecidableEq, Repr

/-- Source `getRateLimitStatus` (lines 181-195): calls
`resetCountersIfNeeded`, then builds the snapshot, whose last field calls
`canMakeRequest` (which resets again — a no-op at the same instant). -/
def getRateLimitStatus (now : Nat) (s : RLState) : RateLimitStatus × RLState :=
  let s1 := resetCountersIfNeeded now s
  let (ok, s2) := canMakeRequest now s1
  ({ requestsThisSecond := s1.requestsThisSecond,
     requestsThis2Minutes := s1.requestsThis2Minutes,
     queueLength := s1.queue.length,
     canMakeRequest := ok }, s2)

/-! ## Traces of limiter events (for the short-window bound) -/

/-- An event hitting the limiter: a fresh `waitForRateLimit` call, or one
iteration of the queue servicer. -/
inductive RLEvent where
  | call (rid : Nat) (priority : Int)
  | service
deriving DecidableEq, Repr

/-- One timed event step; the boolean records whether an admission (a
`recordRequest`) happened. -/
def rlStep : Nat × RLEvent → RLState → Bool × RLState
  | (now, .call rid p), s =>
    match waitForRateLimit now p rid s with
    | (.admitted, s1) => (true, s1)
    | (.queued, s1) => (false, s1)
  | (now, .service), s =>
    match processQueueStep now s with
    | (some _, s1) => (true, s1)
    | (none, s1) => (false, s1)

/-- Number of admissions over a timed event trace. -/
def admissionCount : List (Nat × RLEvent) → RLState → Nat
  | [], _ => 0
  | ev :: rest, s =>
    let (b, s1) := rlStep ev s
    (if b then 1 else 0) + admissionCount rest s1

/-! ## Retry policy (`withRetry`, rate-limiter.ts lines 148-176)

The wrapped operation is embedded as an oracle `fn : Nat → Except String α`
giving the outcome of its i-th invocation (a thrown `Error` becomes
`Except.error` carrying its message).  `withRetry` returns the final
outcome together with the number of invocations of `fn` and the list of
backoff sleeps performed (in milliseconds, in order).  The
`waitForRateLimit` acquire preceding each attempt only delays and is
modelled separately. -/

/-- The retriable test of line 163:
`error.message?.includes('429') || error.message?.includes('Rate limit')`. -/
def isRateLimitMsg (msg : String) : Bool :=
  jsIncludes msg "429" || jsIncludes msg "Rate limit"

/-- The loop of `withRetry`, with `fuel` remaining iterations (the source
runs `attempt` from `0` to `maxRetries` inclusive).  When the loop ends
without returning, the source throws `lastError || new Error('Max retries
exceeded')`. -/
def withRetryGo (fn : Nat → Except String α) (attempt : Nat) :
    Nat → Option String → Except String α × Nat × List Nat
  | 0, lastError => (.error (lastError.getD "Max retries exceeded"), 0, [])
  | fuel + 1, _ =>
    match fn attempt with
    | .ok v => (.ok v, 1, [])
    | .error e =>
      if isRateLimitMsg e then
        let delay := RETRY_DELAY_MS * 2 ^ attempt
        let (r, n, ds) := withRetryGo fn (attempt + 1) fuel (some e)
        (r, n + 1, delay :: ds)
      else (.error e, 1, [])

/-- Source `withRetry` (lines 148-176): up to `maxRetries + 1` attempts,
exponential backoff on rate-limit errors, immediate propagation of every
other error. -/
def withRetry (fn : Nat → Except String α) (maxRetries : Nat) :
    Except String α × Nat × List Nat :=
  withRetryGo fn 0 (maxRetries + 1) none

/-! ## Cache store (`cache.ts`)

The source keeps seven `LRUCache` instances (lru-cache v10) in a record
`caches` plus a module-level `config.enabled` flag.  A cache is embedded
as a list of entries ordered most-recently-used first.  lru-cache
semantics used by the code: `get` on a fresh entry returns the value and
marks the entry most recently used; `get` on a stale entry
(`start + ttl ≤ now`) deletes it and misses; `set` inserts or replaces
the key at the most-recently-used position with a fresh TTL start, and
when a new key is inserted at capacity it first evicts the
least-recently-used entry. -/

/-- Values stored in the untyped (`any`) caches, restricted to the payload
shapes the modelled operations store.  `null` is the explicit JavaScript
`null` sentinel (distinct from `undefined`, which is a cache miss and is
modelled by `Option.none` of the lookup result). -/
inductive CVal where
  | null
  | str (s : String)
  | nat (n : Nat)
  | strList (l : List String)
  | game (gameId : Nat)
deriving DecidableEq, Repr

/-- One cache entry: key, value and TTL start timestamp. -/
structure LRUEntry where
  key : String
  value : CVal
  start : Nat
deriving DecidableEq, Repr

/-- lru-cache `get`: miss on absent key; a stale entry (its TTL elapsed) is
deleted and missed; a fresh hit returns the value and moves the entry to the
most-recently-used position. -/
def lruGet (ttl now : Nat) (c : List LRUEntry) (k : String) :
    Option CVal × List LRUEntry :=
  match c.find? (fun e => e.key == k) with
  | none => (none, c)
  | some e =>
    if e.start + ttl ≤ now then
      (none, c.eraseP (fun x => x.key == k))
    else
      (some e.value, e :: c.eraseP (fun x => x.key == k))

/-- lru-cache `set`: replace an existing key (moved to most recently used,
TTL restarted), or insert a new key, evicting the least-recently-used entry
when the cache is at capacity. -/
def lruSet (maxSize now : Nat) (c : List LRUEntry) (k : String) (v : CVal) :
    List LRUEntry :=
  if (c.find? (fun e => e.key == k)).isSome then
    ⟨k, v, now⟩ :: c.eraseP (fun e => e.key == k)
  else
    let c1 := if maxSize ≤ c.length then c.dropLast else c
    ⟨k, v, now⟩ :: c1

/-- The seven cache namespaces of `cache.ts` (the keys of `caches`). -/
inductive CacheStore where
  | dataDragon
  | playerProfile
  | rankedInfo
  | matchDetails
  | matchIds
  | liveGame
  | championMastery
deriving DecidableEq, Repr

/-- Source `max` option of each namespace (cache.ts lines 527-555). -/
def storeMax : CacheStore → Nat
  | .dataDragon => 50
  | .playerProfile => 50
  | .rankedInfo => 50
  | .matchDetails => 100
  | .matchIds => 50
  | .liveGame => 20
  | .championMastery => 50

/-- Source `ttl` option of each namespace (`CACHE_TTL`, constants file). -/
def storeTTL : CacheStore → Nat
  | .dataDragon => 24 * 60 * 60 * 1000
  | .playerProfile => 5 * 60 * 1000
  | .rankedInfo => 5 * 60 * 1000
  | .matchDetails => 7 * 24 * 60 * 60 * 1000
  | .matchIds => 2 * 60 * 1000
  | .liveGame => 30 * 1000
  | .championMastery => 10 * 60 * 1000

/-- The record `caches` of cache.ts, one LRU cache per namespace. -/
structure Caches where
  dataDragon : List LRUEntry
  playerProfile : List LRUEntry
  rankedInfo : List LRUEntry
  matchDetails : List LRUEntry
  matchIds : List LRUEntry
  liveGame : List LRUEntry
  championMastery : List LRUEntry
deriving DecidableEq, Repr

/-- `caches[store]` of the source. -/
def Caches.getStore (c : Caches) : CacheStore → List LRUEntry
  | .dataDragon => c.dataDragon
  | .playerProfile => c.playerProfile
  | .rankedInfo => c.rankedInfo
  | .matchDetails => c.matchDetails
  | .matchIds => c.matchIds
  | .liveGame => c.liveGame
  | .championMastery => c.championMastery

/-- Replace one namespace's contents. -/
def Caches.setStore (c : Caches) : CacheStore → List LRUEntry → Caches
  | .dataDragon, l => { c with dataDragon := l }
  | .playerProfile, l => { c with playerProfile := l }
  | .rankedInfo, l => { c with rankedInfo := l }
  | .matchDetails, l => { c with matchDetails := l }
  | .matchIds, l => { c with matchIds := l }
  | .liveGame, l => { c with liveGame := l }
  | .championMastery, l => { c with championMastery := l }

/-- The module state of cache.ts: the `config.enabled` flag and the caches. -/
structure CacheState where
  enabled : Bool
  caches : Caches
deriving DecidableEq, Repr

/-- Source `initCache` (cache.ts lines 564-567): sets `config.enabled`. -/
def initCache (enabled : Bool) (s : CacheState) : CacheState :=
  { s with enabled := enabled }

/-- Source `cacheGet` (lines 579-590): returns `undefined` (here `none`)
without touching the caches when the flag is disabled; otherwise an lru-cache
`get` on the namespace. -/
def cacheGet (now : Nat) (store : CacheStore) (key : String) (s : CacheState) :
    Option CVal × CacheState :=
  if s.enabled then
    let (v, l) := lruGet (storeTTL store) now (s.caches.getStore store) key
    (v, { s with caches := s.caches.setStore store l })
  else (none, s)

/-- Source `cacheSet` (lines 595-601): a no-op when the flag is disabled;
otherwise an lru-cache `set` on the namespace. -/
def cacheSet (now : Nat) (store : CacheStore) (key : String) (v : CVal)
    (s : CacheState) : CacheState :=
  if s.enabled then
    { s with
      caches := s.caches.setStore store
        (lruSet (storeMax store) now (s.caches.getStore store) key v) }
  else s

/-- Source `getCacheStats` (lines 627-638): per-namespace
`(size, maxSize)`; `cache.size` of lru-cache counts the stored entries. -/
def getCacheStats (s : CacheState) :
    List (String × Nat × Nat) × CacheState :=
  ([("dataDragon", s.caches.dataDragon.length, storeMax .dataDragon),
    ("playerProfile", s.caches.playerProfile.length, storeMax .playerProfile),
    ("rankedInfo", s.caches.rankedInfo.length, storeMax .rankedInfo),
    ("matchDetails", s.caches.matchDetails.length, storeMax .matchDetails),
    ("matchIds", s.caches.matchIds.length, storeMax .matchIds),
    ("liveGame", s.caches.liveGame.length, storeMax .liveGame),
    ("championMastery", s.caches.championMastery.length, storeMax .championMastery)], s)

/-- An operation hitting the cache facade while it is (possibly) disabled. -/
inductive CacheOp where
  | get (now : Nat) (store : CacheStore) (key : String)
  | set (now : Nat) (store : CacheStore) (key : String) (v : CVal)
deriving DecidableEq, Repr

/-- Apply a sequence of cache operations, threading the state. -/
def applyCacheOps : List CacheOp → CacheState → CacheState
  | [], s => s
  | .get now st k :: rest, s => applyCacheOps rest (cacheGet now st k s).2
  | .set now st k v :: rest, s => applyCacheOps rest (cacheSet now st k v s)

/-! ## Upstream client (`riot-client.ts`)

The physical HTTP layer is embedded as an oracle giving, per attempt, the
upstream response: either a parsed body or an HTTP error status. -/

/-- Outcome of one physical HTTP request. -/
inductive HttpResp (α : Type) where
  | ok (body : α)
  | err (status : Nat)
deriving DecidableEq, Repr

/-- The error messages thrown inside `riotFetch` (riot-client.ts lines
60-77) for a non-ok response status. -/
def riotStatusError (status : Nat) : String :=
  if status = 401 then "Invalid Riot API key"
  else if status = 403 then "Riot API key does not have access to this endpoint"
  else if status = 404 then "Resource not found"
  else if status = 429 then "Rate limit exceeded (429)"
  else "Riot API error: " ++ toString status

/-- One attempt of the closure passed to `withRetry` by `riotFetch`. -/
def riotAttempt (r : HttpResp α) : Except String α :=
  match r with
  | .ok b => .ok b
  | .err status => .error (riotStatusError status)

/-- Source `riotFetch` (lines 49-82): the attempt closure wrapped in
`withRetry` with `maxRetries = 3`. -/
def riotFetch (responses : Nat → HttpResp α) : Except String α × Nat × List Nat :=
  withRetry (fun i => riotAttempt (responses i)) 3

/-- Reading a cached live-game value back at its expected type: the source
stores either a `CurrentGameInfo` (here identified by its game id) or the
`null` sentinel, and returns the cached value as is. -/
def asGame : CVal → Option Nat
  | .game g => some g
  | _ => none

/-- Source `getCurrentGame` (riot-client.ts lines 380-404): cache lookup in
the `liveGame` namespace; on miss, a fetch; a thrown error whose message
contains `'404'` is converted to a cached `null` ("player not in game"),
every other error propagates. -/
def getCurrentGame (now : Nat) (puuid region : String)
    (responses : Nat → HttpResp Nat) (s : CacheState) :
    Except String (Option Nat) × CacheState :=
  let cacheKey := "livegame:" ++ puuid ++ ":" ++ region
  match cacheGet now .liveGame cacheKey s with
  | (some v, s1) => (.ok (asGame v), s1)
  | (none, s1) =>
    match riotFetch responses with
    | (.ok game, _, _) =>
      (.ok (some game), cacheSet now .liveGame cacheKey (.game game) s1)
    | (.error e, _, _) =>
      if jsIncludes e "404" then
        (.ok none, cacheSet now .liveGame cacheKey .null s1)
      else (.error e, s1)

/-! ## Cache key of `getMatchIds` (riot-client.ts lines 258-295)

The source computes `JSON.stringify(options)` where `options` is a plain
object; `JSON.stringify` serializes the own enumerable string keys in
insertion order.  An options object is embedded as its insertion-ordered
list of key/value pairs. -/

/-- A JSON-serializable option value as used by `getMatchIds` (numbers and
the `type` string). -/
inductive OptVal where
  | num (n : Nat)
  | str (s : String)
deriving DecidableEq, Repr

/-- JSON rendering of one option value. -/
def jsonValStr : OptVal → String
  | .num n => toString n
  | .str s => "\"" ++ s ++ "\""

/-- `JSON.stringify` of a plain object, keys in insertion order. -/
def jsonStringify (pairs : List (String × OptVal)) : String :=
  "\x7b" ++
    String.intercalate ","
      (pairs.map (fun p => "\"" ++ p.1 ++ "\":" ++ jsonValStr p.2)) ++
    "\x7d"

/-- The cache key computed by `getMatchIds` (lines 271-272):
`matchIds:puuid:region:JSON.stringify(options)`. -/
def matchIdsCacheKey (puuid region : String)
    (options : List (String × OptVal)) : String :=
  "matchIds:" ++ puuid ++ ":" ++ region ++ ":" ++ jsonStringify options

/-! ## Batch fetch (`getMatches`, riot-client.ts lines 344-371)

`getMatch` (which may consult the cache) is embedded as a per-id fetch
function returning either the match or the thrown error's message; the
`try`/`catch` around each item maps a failure to `null`, and nulls are
filtered out of the batch results. -/

/-- The fixed batch size of `getMatches` (line 351). -/
def batchSize : Nat := 10

/-- Source `getMatches`: process ids in batches of `batchSize`, keeping
only the items whose fetch succeeded. -/
def getMatches (fetch : String → Except String α) : List String → List α
  | [] => []
  | mid :: rest =>
    (((mid :: rest).take batchSize).map (fun m => (fetch m).toOption)).filterMap id ++
      getMatches fetch ((mid :: rest).drop batchSize)
termination_by l => l.length
decreasing_by simp [batchSize, List.length_drop]; omega

/-! ## Reference data resolver (`data-dragon.ts`)

The in-memory indices are `Map`s built by repeated `Map.set`; they are
embedded as association lists looked up by `find?`.  Only the fields the
modelled resolvers read are kept. -/

/-- The fields of an item record read by `getItemById`. -/
structure ItemData where
  name : String
  plaintext : String
  description : String
  goldTotal : Nat
deriving DecidableEq, Repr

/-- The module-level state of data-dragon.ts: the cached version and the
four id indices (champion, item, spell and rune payloads beyond `ItemData`
are opaque here — the claims only read sizes and item fields). -/
structure DDragonState where
  currentVersion : Option String
  championsById : List (Nat × String)
  itemsById : List (Nat × ItemData)
  spellsById : List (Nat × String)
  runesById : List (Nat × String)
deriving DecidableEq, Repr

/-- JavaScript template-literal rendering of a nullable string (`null`
prints as the string `"null"`). -/
def jsNullableStr : Option String → String
  | some v => v
  | none => "null"

/-- The constant `API_URLS.DATA_DRAGON_CDN`. -/
def DATA_DRAGON_CDN : String := "https://ddragon.leagueoflegends.com/cdn"

/-- The resolved-item descriptor built by `getItemById`. -/
structure ResolvedItem where
  id : Nat
  name : String
  description : String
  cost : Nat
  imageUrl : String
deriving DecidableEq, Repr

/-- Source `getItemById` (data-dragon.ts lines 435-448): id `0` is the
reserved "empty slot" sentinel and returns `null` before any index lookup;
otherwise a lookup in `itemsById` (`item.plaintext || item.description`
falls back on the empty string being falsy). -/
def getItemById (s : DDragonState) (id : Nat) : Option ResolvedItem :=
  if id = 0 then none
  else
    match s.itemsById.find? (fun p => p.1 == id) with
    | none => none
    | some (_, item) =>
      some
        { id := id,
          name := item.name,
          description := if item.plaintext = "" then item.description else item.plaintext,
          cost := item.goldTotal,
          imageUrl := DATA_DRAGON_CDN ++ "/" ++ jsNullableStr s.currentVersion ++
            "/img/item/" ++ toString id ++ ".png" }

/-- The snapshot returned by `getDataDragonStatus`. -/
structure DDStatus where
  version : Option String
  championsLoaded : Nat
  itemsLoaded : Nat
  spellsLoaded : Nat
  runesLoaded : Nat
deriving DecidableEq, Repr

/-- Source `getDataDragonStatus` (data-dragon.ts lines 501-515): the version
and the sizes of the four indices. -/
def getDataDragonStatus (s : DDragonState) : DDStatus × DDragonState :=
  ({ version := s.currentVersion,
     championsLoaded := s.championsById.length,
     itemsLoaded := s.itemsById.length,
     spellsLoaded := s.spellsById.length,
     runesLoaded := s.runesById.length }, s)

/-! ## Helper lemmas about the rate-limiter state -/

theorem resetCountersIfNeeded_queue (now : Nat) (s : RLState) :
    (resetCountersIfNeeded now s).queue = s.queue := by
  unfold resetCountersIfNeeded
  split <;> (dsimp only; split <;> rfl)

theorem resetCountersIfNeeded_processing (now : Nat) (s : RLState) :
    (resetCountersIfNeeded now s).processing = s.processing := by
  unfold resetCountersIfNeeded
  split <;> (dsimp only; split <;> rfl)

theorem canMakeRequest_snd (now : Nat) (s : RLState) :
    (canMakeRequest now s).2 = resetCountersIfNeeded now s := rfl

theorem resetCountersIfNeeded_second_window (now : Nat) (s : RLState)
    (h : now - s.lastSecondReset < 1000) :
    (resetCountersIfNeeded now s).lastSecondReset = s.lastSecondReset ∧
    (resetCountersIfNeeded now s).requestsThisSecond = s.requestsThisSecond := by
  unfold resetCountersIfNeeded
  have h1 : ¬ 1000 ≤ now - s.lastSecondReset := by omega
  simp only [h1, if_false]
  split <;> exact ⟨rfl, rfl⟩

theorem resetCountersIfNeeded_noop (now : Nat) (s : RLState)
    (h1 : now - s.lastSecondReset < 1000) (h2 : now - s.last2MinutesReset < 120000) :
    resetCountersIfNeeded now s = s := by
  unfold resetCountersIfNeeded
  have h1n : ¬ 1000 ≤ now - s.lastSecondReset := by omega
  have h2n : ¬ 120000 ≤ now - s.last2MinutesReset := by omega
  simp [h1n, h2n]

theorem resetCountersIfNeeded_idem (now : Nat) (s : RLState) :
    resetCountersIfNeeded now (resetCountersIfNeeded now s) = resetCountersIfNeeded now s := by
  unfold resetCountersIfNeeded
  by_cases h1 : 1000 ≤ now - s.lastSecondReset <;>
    by_cases h2 : 120000 ≤ now - s.last2MinutesReset <;>
      simp [h1, h2]

/-! ## C9: the item resolver's zero sentinel -/

/-- C9: `getItemById` applied to id 0 returns absent for every state of the
item index — before any load and even when an entry keyed 0 is present —
without consulting the index. -/
theorem getItemById_zero_absent : ∀ s : DDragonState, getItemById s 0 = none := by
  intro s
  simp [getItemById]

/-! ## C7: batch fetch resilience -/

theorem getMatches_eq_filterMap (fetch : String → Except String α) :
    ∀ (n : Nat) (ids : List String), ids.length ≤ n →
      getMatches fetch ids = ids.filterMap fun m => (fetch m).toOption := by
  intro n
  induction n with
  | zero =>
    intro ids h
    have : ids = [] := List.eq_nil_of_length_eq_zero (Nat.le_zero.mp h)
    subst this
    simp [getMatches]
  | succ n ih =>
    intro ids h
    match ids with
    | [] => simp [getMatches]
    | mid :: rest =>
      rw [getMatches]
      have hdrop : ((mid :: rest).drop batchSize).length ≤ n := by
        simp only [List.length_drop, List.length_cons, batchSize]
        simp only [List.length_cons] at h
        omega
      rw [ih _ hdrop]
      have hsplit := List.take_append_drop batchSize (mid :: rest)
      conv_rhs => rw [← hsplit]
      rw [List.filterMap_append]
      congr 1
      rw [List.filterMap_map]
      rfl

/-- C7: `getMatches` is total (a single item's failure never aborts the
batch): for every fetch behaviour and every list of N ids, the result is
exactly the list of successfully fetched matches, in order, and has length
at most N. -/
theorem getMatches_partial_failure_safe :
    ∀ (fetch : String → Except String Nat) (ids : List String),
      getMatches fetch ids = ids.filterMap (fun m => (fetch m).toOption) ∧
      (getMatches fetch ids).length ≤ ids.length := by
  intro fetch ids
  have heq := getMatches_eq_filterMap fetch ids.length ids le_rfl
  exact ⟨heq, by rw [heq]; exact List.length_filterMap_le _ _⟩

/-! ## C10: the fast path of `waitForRateLimit` bypasses the queue -/

/-- C10: when both windows have headroom, a `waitForRateLimit` call is
admitted immediately, consumes one unit of each window, and leaves the wait
queue exactly as it was — even when the queue is non-empty, so a new arrival
is admitted ahead of any queued request regardless of priority. -/
theorem waitForRateLimit_fast_path (now : Nat) (priority : Int) (rid : Nat)
    (s : RLState) (h : (canMakeRequest now s).1 = true) :
    waitForRateLimit now priority rid s
      = (.admitted, recordRequest (canMakeRequest now s).2) ∧
    (waitForRateLimit now priority rid s).2.queue = s.queue ∧
    (waitForRateLimit now priority rid s).2.requestsThisSecond
      = (canMakeRequest now s).2.requestsThisSecond + 1 ∧
    (waitForRateLimit now priority rid s).2.requestsThis2Minutes
      = (canMakeRequest now s).2.requestsThis2Minutes + 1 := by
  unfold waitForRateLimit
  rw [show canMakeRequest now s = ((canMakeRequest now s).1, (canMakeRequest now s).2) from rfl, h]
  refine ⟨rfl, ?_, rfl, rfl⟩
  simp [recordRequest, canMakeRequest_snd, resetCountersIfNeeded_queue]

/-! ## C5: the `getMatchIds` cache key is order-sensitive -/

theorem string_append_left_cancel (a b c : String) : a ++ b = a ++ c ↔ b = c := by
  constructor
  · intro h
    have hd := congrArg String.data h
    simp only [String.data_append] at hd
    exact String.ext (List.append_cancel_left hd)
  · intro h
    rw [h]

/-- C5 counterexample: two options objects holding exactly the same
key-value pairs (`queue = 420`, `count = 10`) in different insertion order
produce different cache keys, so a result cached under one is a miss for
the other. -/
theorem matchIdsCacheKey_order_counterexample :
    [("queue", OptVal.num 420), ("count", OptVal.num 10)].Perm
      [("count", OptVal.num 10), ("queue", OptVal.num 420)] ∧
    matchIdsCacheKey "puuid1" "europe" [("queue", OptVal.num 420), ("count", OptVal.num 10)]
      ≠ matchIdsCacheKey "puuid1" "europe" [("count", OptVal.num 10), ("queue", OptVal.num 420)] := by
  constructor
  · exact List.Perm.swap _ _ _
  · decide

/-- C5 (amended): the cache key of `getMatchIds` is deterministic in the
options object's JSON serialization, not in its key-value set: for a fixed
player and region, two options objects collide on the cache key exactly when
`JSON.stringify` renders them identically.  Since `JSON.stringify` follows
key insertion order, equivalent parameter sets supplied in different key
order produce different keys (a cache miss), there being no
canonicalization. -/
theorem matchIdsCacheKey_canonical_in_serialization :
    ∀ (puuid region : String) (o1 o2 : List (String × OptVal)),
      matchIdsCacheKey puuid region o1 = matchIdsCacheKey puuid region o2 ↔
        jsonStringify o1 = jsonStringify o2 := by
  intro puuid region o1 o2
  exact string_append_left_cancel ("matchIds:" ++ puuid ++ ":" ++ region ++ ":") _ _

/-! ## C1: the live-game not-found branch is dead code

`riotFetch` maps HTTP 404 to `Error('Resource not found')`, but
`getCurrentGame` tests `error.message.includes('404')`; no thrown message
for a 404 response contains the substring `'404'`, so the branch that
caches the `null` "no game" value never runs. -/

/-- C1: evaluating `getCurrentGame` at the failing input — an upstream call
that fails with HTTP 404 on a cache miss: the error `Resource not found`
propagates to the caller and the liveGame namespace is left without the
`null` sentinel (the state is unchanged), because the thrown message does
not contain the substring `404`.  The spec (and the source's own
`Player is not in a game` comment) instead require a cached, returned
`null`. -/
theorem getCurrentGame_notFound_propagates :
    getCurrentGame 0 "puuid1" "euw1" (fun _ => .err 404) ⟨true, ⟨[], [], [], [], [], [], []⟩⟩
      = (.error "Resource not found", ⟨true, ⟨[], [], [], [], [], [], []⟩⟩) ∧
    riotStatusError 404 = "Resource not found" ∧
    jsIncludes (riotStatusError 404) "404" = false :=
  ⟨rfl, rfl, rfl⟩

/-! ## C3: priority-major, arrival-minor admission from the queue -/

theorem insertByPrio_ne_nil (x : QueuedRequest) (l : List QueuedRequest) :
    insertByPrio x l ≠ [] := by
  cases l with
  | nil => simp [insertByPrio]
  | cons y ys =>
    unfold insertByPrio
    split <;> simp

theorem sortByPrioDesc_nil_iff (l : List QueuedRequest) :
    sortByPrioDesc l = [] ↔ l = [] := by
  cases l with
  | nil => simp [sortByPrioDesc]
  | cons a l =>
    simp only [sortByPrioDesc, List.foldr_cons]
    constructor
    · intro h
      exact absurd h (insertByPrio_ne_nil _ _)
    · intro h
      cases h

theorem sortByPrioDesc_head_spec :
    ∀ (l : List QueuedRequest) (x : QueuedRequest) (rest : List QueuedRequest),
      sortByPrioDesc l = x :: rest →
      (∀ r ∈ l, r.priority ≤ x.priority) ∧
      l.find? (fun r => decide (x.priority ≤ r.priority)) = some x := by
  intro l
  induction l with
  | nil =>
    intro x rest h
    simp [sortByPrioDesc] at h
  | cons a l ih =>
    intro x rest h
    have hsort : sortByPrioDesc (a :: l) = insertByPrio a (sortByPrioDesc l) := rfl
    rw [hsort] at h
    cases hs : sortByPrioDesc l with
    | nil =>
      rw [hs] at h
      simp only [insertByPrio, List.cons.injEq] at h
      obtain ⟨rfl, -⟩ := h
      have hl : l = [] := (sortByPrioDesc_nil_iff l).mp hs
      subst hl
      refine ⟨?_, ?_⟩
      · intro r hr
        rw [List.mem_singleton] at hr
        subst hr
        exact le_refl _
      · rw [List.find?_cons_of_pos]
        simp
    | cons y ys =>
      rw [hs] at h
      obtain ⟨ihmax, ihfind⟩ := ih y ys hs
      unfold insertByPrio at h
      by_cases hp : y.priority ≤ a.priority
      · rw [if_pos hp] at h
        rw [List.cons.injEq] at h
        obtain ⟨rfl, -⟩ := h
        refine ⟨?_, ?_⟩
        · intro r hr
          rcases List.mem_cons.mp hr with hr1 | hr2
          · subst hr1; exact le_refl _
          · exact le_trans (ihmax r hr2) hp
        · rw [List.find?_cons_of_pos]
          simp
      · rw [if_neg hp] at h
        rw [List.cons.injEq] at h
        obtain ⟨rfl, -⟩ := h
        have hlt : a.priority < y.priority := not_le.mp hp
        refine ⟨?_, ?_⟩
        · intro r hr
          rcases List.mem_cons.mp hr with hr1 | hr2
          · subst hr1; exact le_of_lt hlt
          · exact ihmax r hr2
        · rw [List.find?_cons_of_neg, ihfind]
          simp [not_le.mpr hlt]

/-- C3: whenever one iteration of the queue servicer admits a request, the
admitted request belongs to the queue as it stands at that moment, no
waiting request (including later joiners) has higher priority, and the
admitted request is the earliest-enqueued among those of maximal priority
(it is the first queue element whose priority reaches its own). -/
theorem processQueue_admits_max_priority (now : Nat) (s : RLState)
    (next : QueuedRequest) (s1 : RLState)
    (h : processQueueStep now s = (some next, s1)) :
    next ∈ s.queue ∧
    (∀ r ∈ s.queue, r.priority ≤ next.priority) ∧
    s.queue.find? (fun r => decide (next.priority ≤ r.priority)) = some next := by
  have hq : (canMakeRequest now s).2.queue = s.queue := by
    rw [canMakeRequest_snd]
    exact resetCountersIfNeeded_queue now s
  unfold processQueueStep at h
  rw [show canMakeRequest now s = ((canMakeRequest now s).1, (canMakeRequest now s).2)
    from rfl] at h
  dsimp only at h
  cases hok : (canMakeRequest now s).1 with
  | false =>
    rw [hok] at h
    simp at h
  | true =>
    rw [hok] at h
    simp only [if_true] at h
    cases hsort : sortByPrioDesc (canMakeRequest now s).2.queue with
    | nil =>
      rw [hsort] at h
      simp at h
    | cons nx rest =>
      rw [hsort] at h
      simp only [Prod.mk.injEq, Option.some.injEq] at h
      obtain ⟨rfl, -⟩ := h
      rw [hq] at hsort
      obtain ⟨hmax, hfind⟩ := sortByPrioDesc_head_spec s.queue nx rest hsort
      exact ⟨List.mem_of_find?_eq_some hfind, hmax, hfind⟩

/-- Witness for C3: in a queue holding priorities `[1, 5, 5]` (in enqueue
order, ids 1, 2, 3), the servicer admits id 2 — maximal priority, earliest
of the two ties. -/
theorem processQueue_admits_max_priority_witness :
    (⟨2, 5⟩ : QueuedRequest) ∈ [(⟨1, 1⟩ : QueuedRequest), ⟨2, 5⟩, ⟨3, 5⟩] ∧
    (∀ r ∈ [(⟨1, 1⟩ : QueuedRequest), ⟨2, 5⟩, ⟨3, 5⟩],
       r.priority ≤ (⟨2, 5⟩ : QueuedRequest).priority) ∧
    ([(⟨1, 1⟩ : QueuedRequest), ⟨2, 5⟩, ⟨3, 5⟩]).find?
        (fun r => decide ((⟨2, 5⟩ : QueuedRequest).priority ≤ r.priority)) = some ⟨2, 5⟩ :=
  processQueue_admits_max_priority 0 ⟨0, 0, 0, 0, [⟨1, 1⟩, ⟨2, 5⟩, ⟨3, 5⟩], true⟩ ⟨2, 5⟩
    ⟨1, 1, 0, 0, [⟨3, 5⟩, ⟨1, 1⟩], true⟩ (by decide)

/-! ## C6: observability snapshots -/

theorem getRateLimitStatus_snd (now : Nat) (s : RLState) :
    (getRateLimitStatus now s).2 = resetCountersIfNeeded now s := by
  unfold getRateLimitStatus
  dsimp only
  rw [canMakeRequest_snd, resetCountersIfNeeded_idem]

/-- C6 counterexample: `getRateLimitStatus` is not read-only — called after
the short window has elapsed, it resets the window counter and the window
start timestamp (the `resetCountersIfNeeded` at its top mutates the module
state). -/
theorem getRateLimitStatus_mutates_counterexample :
    (getRateLimitStatus 1000 ⟨5, 7, 0, 0, [], false⟩).2 ≠ ⟨5, 7, 0, 0, [], false⟩ := by
  decide

/-- C6 (amended): `getCacheStats` and `getDataDragonStatus` leave all state
unchanged; `getRateLimitStatus` leaves the wait queue (and the `processing`
flag) unchanged and records no request, but first applies the same
expired-window normalization (`resetCountersIfNeeded`) as every limiter entry
point, so it leaves the limiter state unchanged exactly when neither quota
window has expired at the time of the call. -/
theorem statusSnapshots_read_only_amended :
    (∀ s : CacheState, (getCacheStats s).2 = s) ∧
    (∀ d : DDragonState, (getDataDragonStatus d).2 = d) ∧
    (∀ (now : Nat) (s : RLState),
      (getRateLimitStatus now s).2 = resetCountersIfNeeded now s ∧
      (getRateLimitStatus now s).2.queue = s.queue ∧
      (getRateLimitStatus now s).2.processing = s.processing ∧
      (now - s.lastSecondReset < 1000 → now - s.last2MinutesReset < 120000 →
        (getRateLimitStatus now s).2 = s)) := by
  refine ⟨fun s => rfl, fun d => rfl, fun now s => ?_⟩
  rw [getRateLimitStatus_snd]
  exact ⟨rfl, resetCountersIfNeeded_queue now s, resetCountersIfNeeded_processing now s,
    fun h1 h2 => resetCountersIfNeeded_noop now s h1 h2⟩

/-- Witness for the amended C6 at a concrete fresh state: inside both
windows, the snapshot leaves the limiter state unchanged. -/
theorem statusSnapshots_read_only_amended_witness :
    (getRateLimitStatus 500 ⟨5, 7, 0, 0, [⟨1, 2⟩], false⟩).2 = ⟨5, 7, 0, 0, [⟨1, 2⟩], false⟩ :=
  (statusSnapshots_read_only_amended.2.2 500 ⟨5, 7, 0, 0, [⟨1, 2⟩], false⟩).2.2.2
    (by decide) (by decide)

/-- Witness for C10 at a concrete state whose queue holds a waiting request
of priority 100: the new arrival (priority 0) is still admitted at once and
the queued request stays queued. -/
theorem waitForRateLimit_fast_path_witness :
    waitForRateLimit 5 0 1 ⟨3, 4, 0, 0, [⟨9, 100⟩], true⟩
      = (.admitted, recordRequest (canMakeRequest 5 ⟨3, 4, 0, 0, [⟨9, 100⟩], true⟩).2) ∧
    (waitForRateLimit 5 0 1 ⟨3, 4, 0, 0, [⟨9, 100⟩], true⟩).2.queue = [⟨9, 100⟩] ∧
    (waitForRateLimit 5 0 1 ⟨3, 4, 0, 0, [⟨9, 100⟩], true⟩).2.requestsThisSecond
      = (canMakeRequest 5 ⟨3, 4, 0, 0, [⟨9, 100⟩], true⟩).2.requestsThisSecond + 1 ∧
    (waitForRateLimit 5 0 1 ⟨3, 4, 0, 0, [⟨9, 100⟩], true⟩).2.requestsThis2Minutes
      = (canMakeRequest 5 ⟨3, 4, 0, 0, [⟨9, 100⟩], true⟩).2.requestsThis2Minutes + 1 :=
  waitForRateLimit_fast_path 5 0 1 ⟨3, 4, 0, 0, [⟨9, 100⟩], true⟩ (by decide)

/-! ## C2: the short-window admission bound -/

theorem waitForRateLimit_admitted_eq (now : Nat) (p : Int) (rid : Nat) (s : RLState)
    (h : (canMakeRequest now s).1 = true) :
    waitForRateLimit now p rid s = (.admitted, recordRequest (canMakeRequest now s).2) := by
  unfold waitForRateLimit
  rw [show canMakeRequest now s = ((canMakeRequest now s).1, (canMakeRequest now s).2)
    from rfl, h]
  rfl

theorem waitForRateLimit_queued_eq (now : Nat) (p : Int) (rid : Nat) (s : RLState)
    (h : (canMakeRequest now s).1 = false) :
    waitForRateLimit now p rid s
      = (.queued,
          { (canMakeRequest now s).2 with
            queue := (canMakeRequest now s).2.queue ++ [⟨rid, p⟩] }) := by
  unfold waitForRateLimit
  rw [show canMakeRequest now s = ((canMakeRequest now s).1, (canMakeRequest now s).2)
    from rfl, h]
  rfl

theorem canMakeRequest_true_lt (now : Nat) (s : RLState)
    (h : (canMakeRequest now s).1 = true) :
    (resetCountersIfNeeded now s).requestsThisSecond < REQUESTS_PER_SECOND ∧
    (resetCountersIfNeeded now s).requestsThis2Minutes < REQUESTS_PER_2_MINUTES := by
  unfold canMakeRequest at h
  dsimp only at h
  rw [Bool.and_eq_true] at h
  exact ⟨of_decide_eq_true h.1, of_decide_eq_true h.2⟩

theorem rlStep_second_window (t : Nat) (e : RLEvent) (s : RLState)
    (h : t - s.lastSecondReset < 1000) :
    (rlStep (t, e) s).2.lastSecondReset = s.lastSecondReset ∧
    (rlStep (t, e) s).2.requestsThisSecond
      = s.requestsThisSecond + (if (rlStep (t, e) s).1 then 1 else 0) ∧
    ((rlStep (t, e) s).1 = true → s.requestsThisSecond < REQUESTS_PER_SECOND) := by
  obtain ⟨hL, hC⟩ := resetCountersIfNeeded_second_window t s h
  cases e with
  | call rid p =>
    cases hok : (canMakeRequest t s).1 with
    | true =>
      have heq := waitForRateLimit_admitted_eq t p rid s hok
      have hlt := (canMakeRequest_true_lt t s hok).1
      simp only [rlStep, heq, canMakeRequest_snd]
      refine ⟨?_, ?_, fun _ => ?_⟩
      · exact hL
      · simp [recordRequest, hC]
      · rw [hC] at hlt; exact hlt
    | false =>
      have heq := waitForRateLimit_queued_eq t p rid s hok
      simp only [rlStep, heq, canMakeRequest_snd]
      exact ⟨hL, by simp [hC], fun hcontra => by cases hcontra⟩
  | service =>
    cases hok : (canMakeRequest t s).1 with
    | false =>
      have heq : processQueueStep t s = (none, (canMakeRequest t s).2) := by
        unfold processQueueStep
        rw [show canMakeRequest t s = ((canMakeRequest t s).1, (canMakeRequest t s).2)
          from rfl, hok]
        rfl
      simp only [rlStep, heq, canMakeRequest_snd]
      exact ⟨hL, by simp [hC], fun hcontra => by cases hcontra⟩
    | true =>
      have hlt := (canMakeRequest_true_lt t s hok).1
      cases hsort : sortByPrioDesc (canMakeRequest t s).2.queue with
      | nil =>
        have heq : processQueueStep t s = (none, (canMakeRequest t s).2) := by
          unfold processQueueStep
          rw [show canMakeRequest t s = ((canMakeRequest t s).1, (canMakeRequest t s).2)
            from rfl, hok]
          simp [hsort]
        simp only [rlStep, heq, canMakeRequest_snd]
        exact ⟨hL, by simp [hC], fun hcontra => by cases hcontra⟩
      | cons nx rest =>
        have heq : processQueueStep t s
            = (some nx, recordRequest { (canMakeRequest t s).2 with queue := rest }) := by
          unfold processQueueStep
          rw [show canMakeRequest t s = ((canMakeRequest t s).1, (canMakeRequest t s).2)
            from rfl, hok]
          simp [hsort]
        simp only [rlStep, heq, canMakeRequest_snd]
        refine ⟨?_, ?_, fun _ => ?_⟩
        · exact hL
        · simp [recordRequest, hC]
        · rw [hC] at hlt; exact hlt

theorem admissionCount_le (trace : List (Nat × RLEvent)) :
    ∀ s : RLState, (∀ ev ∈ trace, ev.1 - s.lastSecondReset < 1000) →
      admissionCount trace s ≤ REQUESTS_PER_SECOND - s.requestsThisSecond := by
  induction trace with
  | nil =>
    intro s _
    simp [admissionCount]
  | cons ev rest ih =>
    intro s h
    obtain ⟨t, e⟩ := ev
    have hev : t - s.lastSecondReset < 1000 := h (t, e) (List.mem_cons_self _ _)
    obtain ⟨hL, hC, hA⟩ := rlStep_second_window t e s hev
    rw [admissionCount]
    rcases hst : rlStep (t, e) s with ⟨b, s1⟩
    rw [hst] at hL hC hA
    dsimp only at hL hC hA ⊢
    have hrest : ∀ ev2 ∈ rest, ev2.1 - s1.lastSecondReset < 1000 := by
      intro ev2 hm
      rw [hL]
      exact h ev2 (List.mem_cons_of_mem _ hm)
    have hih := ih s1 hrest
    rw [hC] at hih
    cases b with
    | false =>
      simp only [if_false, Bool.false_eq_true, Nat.add_zero] at hih ⊢
      omega
    | true =>
      have hlim := hA rfl
      simp only [if_true] at hih ⊢
      omega

/-- C2: within a single short window — a stretch of limiter events all
falling strictly less than 1000 ms after the window start — the limiter
never admits more than `REQUESTS_PER_SECOND` (20) requests in total: any
call beyond the limit is held at least until the window resets. -/
theorem rateLimiter_short_window_bound (s : RLState) (trace : List (Nat × RLEvent))
    (hc : s.requestsThisSecond ≤ REQUESTS_PER_SECOND)
    (hw : ∀ ev ∈ trace, ev.1 - s.lastSecondReset < 1000) :
    s.requestsThisSecond + admissionCount trace s ≤ REQUESTS_PER_SECOND := by
  have := admissionCount_le trace s hw
  omega

/-- Witness for C2: 25 rapid-fire calls inside one fresh window admit at
most 20 requests. -/
theorem rateLimiter_short_window_bound_witness :
    (⟨0, 0, 0, 0, [], false⟩ : RLState).requestsThisSecond +
      admissionCount (List.replicate 25 (0, RLEvent.call 0 0)) ⟨0, 0, 0, 0, [], false⟩
      ≤ REQUESTS_PER_SECOND :=
  rateLimiter_short_window_bound ⟨0, 0, 0, 0, [], false⟩
    (List.replicate 25 (0, RLEvent.call 0 0)) (by decide) (by decide)

/-! ## C4: the retry policy -/

theorem range_succ_pow_delays (attempt K : Nat) :
    (List.range (K + 1)).map (fun i => RETRY_DELAY_MS * 2 ^ (attempt + i))
      = RETRY_DELAY_MS * 2 ^ attempt
          :: (List.range K).map (fun i => RETRY_DELAY_MS * 2 ^ (attempt + 1 + i)) := by
  rw [List.range_succ_eq_map]
  simp only [List.map_cons, List.map_map, Nat.add_zero]
  congr 1
  apply List.map_congr_left
  intro a _
  have h : attempt + (a + 1) = attempt + 1 + a := by omega
  simp [Function.comp, Nat.succ_eq_add_one, h]

theorem withRetryGo_success {α : Type} (fn : Nat → Except String α) :
    ∀ (K attempt fuel : Nat) (lastE : Option String) (v : α),
      K < fuel →
      (∀ i, i < K → ∃ e, fn (attempt + i) = .error e ∧ isRateLimitMsg e = true) →
      fn (attempt + K) = .ok v →
      withRetryGo fn attempt fuel lastE
        = (.ok v, K + 1, (List.range K).map fun i => RETRY_DELAY_MS * 2 ^ (attempt + i)) := by
  intro K
  induction K with
  | zero =>
    intro attempt fuel lastE v hK hfail hok
    obtain ⟨f, rfl⟩ : ∃ f, fuel = f + 1 := ⟨fuel - 1, by omega⟩
    rw [Nat.add_zero] at hok
    simp [withRetryGo, hok]
  | succ K ih =>
    intro attempt fuel lastE v hK hfail hok
    obtain ⟨f, rfl⟩ : ∃ f, fuel = f + 1 := ⟨fuel - 1, by omega⟩
    obtain ⟨e, he, hrl⟩ := hfail 0 (Nat.succ_pos K)
    rw [Nat.add_zero] at he
    have hrec := ih (attempt + 1) f (some e) v (by omega)
      (fun i hi => by
        obtain ⟨e2, h1, h2⟩ := hfail (i + 1) (by omega)
        refine ⟨e2, ?_, h2⟩
        rw [show attempt + 1 + i = attempt + (i + 1) from by omega]
        exact h1)
      (by rw [show attempt + 1 + K = attempt + (K + 1) from by omega]; exact hok)
    rw [range_succ_pow_delays attempt K, withRetryGo, he]
    simp [hrl, hrec]

theorem withRetryGo_allfail {α : Type} (fn : Nat → Except String α) :
    ∀ (fuel : Nat), ∀ (attempt : Nat) (lastE : Option String),
      1 ≤ fuel →
      (∀ i, i < fuel → ∃ e, fn (attempt + i) = .error e ∧ isRateLimitMsg e = true) →
      ∃ e, fn (attempt + (fuel - 1)) = .error e ∧
        withRetryGo fn attempt fuel lastE
          = (.error e, fuel, (List.range fuel).map fun i => RETRY_DELAY_MS * 2 ^ (attempt + i)) := by
  intro fuel
  induction fuel with
  | zero =>
    intro attempt lastE h
    exact absurd h (by decide)
  | succ f ihf =>
    intro attempt lastE hpos hfail
    obtain ⟨e, he, hrl⟩ := hfail 0 (Nat.succ_pos f)
    rw [Nat.add_zero] at he
    cases Nat.eq_zero_or_pos f with
    | inl hf0 =>
      subst hf0
      refine ⟨e, by simpa using he, ?_⟩
      rw [withRetryGo, he]
      simp [hrl, withRetryGo, List.range_succ]
    | inr hfpos =>
      obtain ⟨e2, he2, heq⟩ := ihf (attempt + 1) (some e) hfpos
        (fun i hi => by
          obtain ⟨e3, h1, h2⟩ := hfail (i + 1) (by omega)
          refine ⟨e3, ?_, h2⟩
          rw [show attempt + 1 + i = attempt + (i + 1) from by omega]
          exact h1)
      refine ⟨e2, ?_, ?_⟩
      · rw [show attempt + (f + 1 - 1) = attempt + 1 + (f - 1) from by omega]
        exact he2
      · rw [range_succ_pow_delays attempt f, withRetryGo, he]
        simp [hrl, heq]

/-- C4: under the retry policy, an operation that fails retriably (a
rate-limit error) on its first K attempts and succeeds on attempt K+1 with
K ≤ maxRetries yields the success result after exactly K+1 invocations,
with a backoff sleep of `RETRY_DELAY_MS * 2 ^ attemptIndex` (0-based)
before each re-attempt; and when all maxRetries+1 attempts fail retriably,
the last retriable error is surfaced to the caller. -/
theorem withRetry_spec :
    (∀ {α : Type} (fn : Nat → Except String α) (maxRetries K : Nat) (v : α),
       K ≤ maxRetries →
       (∀ i, i < K → ∃ e, fn i = .error e ∧ isRateLimitMsg e = true) →
       fn K = .ok v →
       withRetry fn maxRetries
         = (.ok v, K + 1, (List.range K).map fun i => RETRY_DELAY_MS * 2 ^ i)) ∧
    (∀ {α : Type} (fn : Nat → Except String α) (maxRetries : Nat),
       (∀ i, i ≤ maxRetries → ∃ e, fn i = .error e ∧ isRateLimitMsg e = true) →
       ∃ e, fn maxRetries = .error e ∧
         withRetry fn maxRetries
           = (.error e, maxRetries + 1,
               (List.range (maxRetries + 1)).map fun i => RETRY_DELAY_MS * 2 ^ i)) := by
  constructor
  · intro α fn maxRetries K v hK hfail hok
    have h := withRetryGo_success fn K 0 (maxRetries + 1) none v (by omega)
      (fun i hi => by simpa using hfail i hi)
      (by simpa using hok)
    simpa [withRetry] using h
  · intro α fn maxRetries hfail
    obtain ⟨e, he, heq⟩ := withRetryGo_allfail fn (maxRetries + 1) 0 none (by omega)
      (fun i hi => by simpa using hfail i (by omega))
    exact ⟨e, by simpa using he, by simpa [withRetry] using heq⟩

/-- Witness for C4: an operation that is throttled on attempts 0 and 1 and
succeeds on attempt 2 returns the value after 3 invocations with sleeps of
1000 ms and 2000 ms; an operation throttled on every attempt with
maxRetries = 1 surfaces the last throttling error after 2 invocations. -/
theorem withRetry_spec_witness :
    withRetry (fun i => if i < 2 then Except.error "Rate limit exceeded (429)" else Except.ok 7) 3
      = (Except.ok 7, 3, [1000, 2000]) ∧
    withRetry (fun i : Nat =>
        (Except.error (if i = 0 then "Rate limit hit" else "429 again") : Except String Nat)) 1
      = (Except.error "429 again", 2, [1000, 2000]) := by
  constructor
  · have h := withRetry_spec.1
      (fun i => if i < 2 then Except.error "Rate limit exceeded (429)" else Except.ok 7) 3 2 7
      (by omega)
      (fun i hi => ⟨"Rate limit exceeded (429)", by simp [hi], by decide⟩)
      rfl
    exact h.trans rfl
  · obtain ⟨e, he, heq⟩ := withRetry_spec.2
      (fun i : Nat =>
        (Except.error (if i = 0 then "Rate limit hit" else "429 again") : Except String Nat)) 1
      (fun i hi => ⟨if i = 0 then "Rate limit hit" else "429 again", rfl, by
        by_cases h0 : i = 0 <;> simp [h0] <;> decide⟩)
    have he2 : e = "429 again" := by
      simpa using he.symm
    subst he2
    exact heq.trans rfl

/-! ## C8: the global cache enable/disable flag -/

theorem cacheGet_disabled :
    ∀ (now : Nat) (st : CacheStore) (k : String) (s : CacheState),
      s.enabled = false → cacheGet now st k s = (none, s) := by
  intro now st k s h
  simp [cacheGet, h]

theorem cacheSet_disabled :
    ∀ (now : Nat) (st : CacheStore) (k : String) (v : CVal) (s : CacheState),
      s.enabled = false → cacheSet now st k v s = s := by
  intro now st k v s h
  simp [cacheSet, h]

theorem applyCacheOps_disabled :
    ∀ (ops : List CacheOp) (s : CacheState),
      s.enabled = false → applyCacheOps ops s = s := by
  intro ops
  induction ops with
  | nil => intro s _; rfl
  | cons op rest ih =>
    intro s h
    cases op with
    | get now st k =>
      simp only [applyCacheOps, cacheGet_disabled now st k s h]
      exact ih s h
    | set now st k v =>
      simp only [applyCacheOps, cacheSet_disabled now st k v s h]
      exact ih s h

theorem getStore_setStore (c : Caches) (st : CacheStore) (l : List LRUEntry) :
    (c.setStore st l).getStore st = l := by
  cases st <;> rfl

theorem lruGet_after_lruSet (maxSize ttl now t1 : Nat) (c : List LRUEntry)
    (k : String) (v : CVal) (h : t1 < now + ttl) :
    (lruGet ttl t1 (lruSet maxSize now c k v) k).1 = some v := by
  have hfind : ∀ (rest : List LRUEntry),
      List.find? (fun e => e.key == k) (⟨k, v, now⟩ :: rest) = some ⟨k, v, now⟩ := by
    intro rest
    rw [List.find?_cons_of_pos]
    simp
  unfold lruSet lruGet
  by_cases hf : (c.find? (fun e => e.key == k)).isSome
  · simp only [hf, if_true, hfind]
    rw [if_neg (by omega)]
  · simp only [hf, if_false, Bool.false_eq_true, hfind]
    rw [if_neg (by omega)]

/-- C8: while the cache flag is disabled, `cacheGet` misses for every
namespace and key and leaves the state untouched, `cacheSet` is a no-op,
and any sequence of cache operations leaves all namespace contents
unchanged; hence an entry stored before disabling survives the disabled
period, and after re-enabling, a get within the entry's TTL returns the
stored value. -/
theorem cacheFlag_disabled_spec :
    (∀ (now : Nat) (st : CacheStore) (k : String) (s : CacheState),
       s.enabled = false → cacheGet now st k s = (none, s)) ∧
    (∀ (now : Nat) (st : CacheStore) (k : String) (v : CVal) (s : CacheState),
       s.enabled = false → cacheSet now st k v s = s) ∧
    (∀ (ops : List CacheOp) (s : CacheState),
       s.enabled = false → applyCacheOps ops s = s) ∧
    (∀ (t0 t1 : Nat) (st : CacheStore) (k : String) (v : CVal) (s : CacheState)
       (ops : List CacheOp),
       s.enabled = true → t1 < t0 + storeTTL st →
       (cacheGet t1 st k
           (initCache true
             (applyCacheOps ops (initCache false (cacheSet t0 st k v s))))).1 = some v) := by
  refine ⟨cacheGet_disabled, cacheSet_disabled, applyCacheOps_disabled, ?_⟩
  intro t0 t1 st k v s ops h1 h2
  rw [applyCacheOps_disabled ops _ rfl]
  simp only [cacheGet, initCache, cacheSet, h1, if_true]
  rw [getStore_setStore]
  exact lruGet_after_lruSet (storeMax st) (storeTTL st) t0 t1 (s.caches.getStore st) k v h2

/-- Witness for C8: a disabled get misses and leaves the state unchanged,
and a value stored at time 0 in the liveGame namespace survives a disabled
period of gets and sets and is returned by a get at time 1 after
re-enabling. -/
theorem cacheFlag_disabled_spec_witness :
    cacheGet 5 .liveGame "k" ⟨false, ⟨[], [], [], [], [], [⟨"k", .str "x", 0⟩], []⟩⟩
      = (none, ⟨false, ⟨[], [], [], [], [], [⟨"k", .str "x", 0⟩], []⟩⟩) ∧
    (cacheGet 1 .liveGame "k"
        (initCache true
          (applyCacheOps [.get 0 .liveGame "k", .set 0 .liveGame "k" (.nat 1)]
            (initCache false
              (cacheSet 0 .liveGame "k" (.str "x") ⟨true, ⟨[], [], [], [], [], [], []⟩⟩))))).1
      = some (.str "x") :=
  ⟨cacheFlag_disabled_spec.1 5 .liveGame "k" _ rfl,
   cacheFlag_disabled_spec.2.2.2 0 1 .liveGame "k" (.str "x") _ _ rfl (by decide)⟩
